import Mathlib

/-!
Shallow embedding of the QR-geometry pipeline in `src/main.rs`
(`shrinkwrap_bounding_box`, the skew-angle formula, the crop stage and
the orientation detector of `decode_qr`) together with theorems about it.

A `GrayImage` is modelled as a width, a height and a total intensity
function `Nat → Nat → Nat`; `get_pixel` of the image crate panics out of
bounds, so a guarded `Option`-returning variant `getPixelOpt` is also
provided and used where totality itself is in question.  The `while`
loops of `shrinkwrap_bounding_box` advance one coordinate at a time and
are bounded by the distance to the opposite edge, so each is embedded as
a structurally recursive scan whose fuel is exactly that distance
(`y2 - y1` resp. `x2 - x1`): the fuel is the loop variant of the Rust
loop, not an approximation.
-/

structure Img where
  w : Nat
  h : Nat
  pix : Nat → Nat → Nat

/-- `for x in xlo..=xhi { if img.get_pixel(x, y) < 16 { … } }`:
does row `y` contain a pixel of intensity below 16 in columns
`[xlo, xhi]`? -/
def rowHasDark (img : Img) (xlo xhi y : Nat) : Bool :=
  (List.range (xhi + 1 - xlo)).any fun i => img.pix (xlo + i) y < 16

/-- `for y in ylo..=yhi { if img.get_pixel(x, y) < 16 { … } }`:
does column `x` contain a pixel of intensity below 16 in rows
`[ylo, yhi]`? -/
def colHasDark (img : Img) (ylo yhi x : Nat) : Bool :=
  (List.range (yhi + 1 - ylo)).any fun i => img.pix x (ylo + i) < 16

/-- `while lo < hi { if p lo { break } else { lo += 1 } }`, with
`fuel = hi - lo`: first index from `start` upward where `p` holds,
else `start + fuel`. -/
def scanUpw (p : Nat → Bool) : Nat → Nat → Nat
  | start, 0 => start
  | start, fuel + 1 => if p start then start else scanUpw p (start + 1) fuel

/-- `while hi > lo { if p hi { break } else { hi -= 1 } }`, with
`fuel = hi - lo`: first index from `start` downward where `p` holds,
else `start - fuel`. -/
def scanDownw (p : Nat → Bool) : Nat → Nat → Nat
  | start, 0 => start
  | start, fuel + 1 => if p start then start else scanDownw p (start - 1) fuel

/-- First loop of `shrinkwrap_bounding_box`: move `y1` down while row
`y1` has no dark pixel in columns `[0, x2]` (the Rust loop scans
`for x in 0..=x2`, starting at column 0). -/
def shrinkTop (img : Img) (x2 y1 y2 : Nat) : Nat :=
  scanUpw (fun y => rowHasDark img 0 x2 y) y1 (y2 - y1)

/-- Second loop: move `x1` right while column `x1` has no dark pixel in
rows `[y1, y2]` (with the already-updated `y1`). -/
def shrinkLeft (img : Img) (x1 x2 y1 y2 : Nat) : Nat :=
  scanUpw (fun x => colHasDark img y1 y2 x) x1 (x2 - x1)

/-- Third loop: move `y2` up while row `y2` has no dark pixel in columns
`[x1, x2]` (with the already-updated `x1`). -/
def shrinkBot (img : Img) (x1 x2 y1 y2 : Nat) : Nat :=
  scanDownw (fun y => rowHasDark img x1 x2 y) y2 (y2 - y1)

/-- Fourth loop: move `x2` left while column `x2` has no dark pixel in
rows `[y1, y2]` (with the already-updated `y1` and `y2`). -/
def shrinkRight (img : Img) (x1 x2 y1 y2 : Nat) : Nat :=
  scanDownw (fun x => colHasDark img y1 y2 x) x2 (x2 - x1)

/-- `shrinkwrap_bounding_box` of `src/main.rs`: the four edge-shrinking
passes run in sequence, each later pass scanning the rectangle already
narrowed by the earlier ones. -/
def shrinkwrap_bounding_box (img : Img) (x1 y1 x2 y2 : Nat) :
    Nat × Nat × Nat × Nat :=
  let y1' := shrinkTop img x2 y1 y2
  let x1' := shrinkLeft img x1 x2 y1' y2
  let y2' := shrinkBot img x1' x2 y1' y2
  let x2' := shrinkRight img x1' x2 y1' y2'
  (x1', y1', x2', y2')

/-- `ID_PATTERN` of `src/main.rs`: the fixed 21-element identifier
strip (7 dark, alternating, 7 dark). -/
def ID_PATTERN : List Bool :=
  [true, true, true, true, true, true, true,
   false, true, false, true, false, true, false,
   true, true, true, true, true, true, true]

/-- `(w as f32 / 21.0).round() as u32`: round-to-nearest of `w / 21`,
modelled in exact arithmetic as `⌊(2w + 21) / 42⌋`.  For integer `w`
the real value `w / 21` is never exactly halfway between two integers
(its distance to one is at least `1/42`), so for all buffer widths of
realistic size the `f32` computation agrees with this exact rounding. -/
def pixelPitch (w : Nat) : Nat := (2 * w + 21) / 42

/-- One row strip of `decode_qr`'s sampling loops: module row `j`
sampled at the 21 module centers, dark = intensity `< 127`
(`id_upper` is `stripRow img 6`, `id_lower` is `stripRow img 14`). -/
def stripRow (img : Img) (j : Nat) : List Bool :=
  (List.range 21).map fun x =>
    decide (img.pix (x * pixelPitch img.w + pixelPitch img.w / 2)
      (j * pixelPitch img.w + pixelPitch img.w / 2) < 127)

/-- One column strip of `decode_qr`'s sampling loops: module column `j`
sampled at the 21 module centers (`id_left` is `stripCol img 6`,
`id_right` is `stripCol img 14`). -/
def stripCol (img : Img) (j : Nat) : List Bool :=
  (List.range 21).map fun y =>
    decide (img.pix (j * pixelPitch img.w + pixelPitch img.w / 2)
      (y * pixelPitch img.w + pixelPitch img.w / 2) < 127)

def idUpper (img : Img) : List Bool := stripRow img 6

def idLower (img : Img) : List Bool := stripRow img 14

def idLeft (img : Img) : List Bool := stripCol img 6

def idRight (img : Img) : List Bool := stripCol img 14

inductive Rot where
  | r0 | r90 | r180 | r270
  deriving DecidableEq

/-- `image::imageops::rotate90` (90° clockwise): the output has swapped
dimensions and `out(x, y) = in(y, h - 1 - x)`. -/
def rotate90 (img : Img) : Img :=
  ⟨img.h, img.w, fun x y => img.pix y (img.h - 1 - x)⟩

/-- `image::imageops::rotate180`: `out(x, y) = in(w - 1 - x, h - 1 - y)`. -/
def rotate180 (img : Img) : Img :=
  ⟨img.w, img.h, fun x y => img.pix (img.w - 1 - x) (img.h - 1 - y)⟩

/-- `image::imageops::rotate270` (90° counter-clockwise): swapped
dimensions and `out(x, y) = in(w - 1 - y, x)`. -/
def rotate270 (img : Img) : Img :=
  ⟨img.h, img.w, fun x y => img.pix (img.w - 1 - y) x⟩

def applyRot : Rot → Img → Img
  | .r0 => fun img => img
  | .r90 => rotate90
  | .r180 => rotate180
  | .r270 => rotate270

/-- The orientation decision chain of `decode_qr` (lines 194–202):
first matching branch wins, the final `else` keeps the buffer as is. -/
def orientDecision (img : Img) : Rot :=
  if idLower img = ID_PATTERN ∧ idLeft img = ID_PATTERN then .r90
  else if idRight img = ID_PATTERN ∧ idLower img = ID_PATTERN then .r180
  else if idUpper img = ID_PATTERN ∧ idRight img = ID_PATTERN then .r270
  else .r0

/-- `image::imageops::crop_imm(img, x, y, cw, ch).to_image()`: the
rectangle is clamped to the image bounds and the clamped sub-rectangle
is copied out; a zero-size rectangle yields a zero-size image, not an
error. -/
def cropImm (img : Img) (x y cw ch : Nat) : Img :=
  ⟨min cw (img.w - x), min ch (img.h - y), fun i j => img.pix (x + i) (y + j)⟩

/-- The crop stage of `decode_qr` (lines 157–158): recompute the
bounding box over the whole buffer, then crop to width `x2 - x1` and
height `y2 - y1` with no degeneracy check. -/
def cropStage (img : Img) : Img :=
  let r := shrinkwrap_bounding_box img 0 0 (img.w - 1) (img.h - 1)
  cropImm img r.1 r.2.1 (r.2.2.1 - r.1) (r.2.2.2 - r.2.1)

/-- The skew-correction angle of `decode_qr` (lines 141–144):
`(tri_h / tri_w).atan()`, with the `f32` arithmetic modelled over ℝ. -/
noncomputable def correction_angle (triW triH : ℝ) : ℝ :=
  Real.arctan (triH / triW)

/-- `GrayImage::get_pixel` guarded by the bounds check that the image
crate performs before panicking: `none` is the panic branch. -/
def getPixelOpt (img : Img) (x y : Nat) : Option Nat :=
  if x < img.w ∧ y < img.h then some (img.pix x y) else none

/-- Sample one strip of module centers through the guarded
`getPixelOpt`, failing as soon as one read is out of bounds. -/
def sampleStripOpt (img : Img) : List (Nat × Nat) → Option (List Bool)
  | [] => some []
  | c :: rest => do
      let v ← getPixelOpt img c.1 c.2
      let r ← sampleStripOpt img rest
      pure (decide (v < 127) :: r)

/-- The pixel coordinates read for a row strip (module row `j`). -/
def rowCoords (w j : Nat) : List (Nat × Nat) :=
  (List.range 21).map fun x =>
    (x * pixelPitch w + pixelPitch w / 2, j * pixelPitch w + pixelPitch w / 2)

/-- The pixel coordinates read for a column strip (module column `j`). -/
def colCoords (w j : Nat) : List (Nat × Nat) :=
  (List.range 21).map fun y =>
    (j * pixelPitch w + pixelPitch w / 2, y * pixelPitch w + pixelPitch w / 2)

/-- The whole orientation-sampling step of `decode_qr` (lines 163–190)
with every `get_pixel` guarded: `none` as soon as one of the 84 reads
(upper and lower row strips, left and right column strips) would panic. -/
def sampleStripsOpt (img : Img) :
    Option (List Bool × List Bool × List Bool × List Bool) := do
  let u ← sampleStripOpt img (rowCoords img.w 6)
  let lo ← sampleStripOpt img (rowCoords img.w 14)
  let l ← sampleStripOpt img (colCoords img.w 6)
  let r ← sampleStripOpt img (colCoords img.w 14)
  pure (u, lo, l, r)

/-- The identifier pattern as a function of the strip index. -/
def pattF (i : Nat) : Bool :=
  if i < 7 then true else if i ≤ 13 then decide (i % 2 = 0) else true

/-- Pointwise form of "the sampled strip of module row `j` equals the
identifier pattern" on a pitch-one (21-pixel-wide) buffer. -/
def rowMatch (img : Img) (j : Nat) : Prop :=
  ∀ i, i < 21 → decide (img.pix i j < 127) = pattF i

/-- Pointwise form of "the sampled strip of module column `j` equals
the identifier pattern" on a pitch-one buffer. -/
def colMatch (img : Img) (j : Nat) : Prop :=
  ∀ i, i < 21 → decide (img.pix j i < 127) = pattF i

/-- All-light 3×3 buffer: every pixel has full intensity 255. -/
def lightImg : Img := ⟨3, 3, fun _ _ => 255⟩

/-- 6×5 buffer with dark pixels at (0,0), (3,4) and (5,2) only. -/
def cexImg : Img :=
  ⟨6, 5, fun x y =>
    if (x = 0 ∧ y = 0) ∨ (x = 3 ∧ y = 4) ∨ (x = 5 ∧ y = 2) then 0 else 255⟩

/-- 3×3 buffer whose only dark pixel is at (0,0). -/
def cex7Img : Img := ⟨3, 3, fun x y => if x = 0 ∧ y = 0 then 0 else 255⟩

/-- 21×15 all-light buffer: wide enough for every horizontal read and
taller than `14·pitch + pitch/2`, yet too short for the column strips. -/
def tallImg : Img := ⟨21, 15, fun _ _ => 255⟩

/-- 4×4 buffer whose dark pixels are exactly the square [1,2]×[1,2]. -/
def rectImg : Img :=
  ⟨4, 4, fun x y => if 1 ≤ x ∧ x ≤ 2 ∧ 1 ≤ y ∧ y ≤ 2 then 0 else 255⟩

/-- Canonical upright pitch-one grid: identifier pattern written into
module row 6 and module column 6, all other modules light. -/
def canonImg : Img :=
  ⟨21, 21, fun x y =>
    if (y = 6 ∧ pattF x = true) ∨ (x = 6 ∧ pattF y = true) then 0 else 255⟩

/-- Pitch-one grid with the identifier pattern written into module row
14 (lower) and module column 6 (left), all other modules light. -/
def wImg90 : Img :=
  ⟨21, 21, fun x y =>
    if (y = 14 ∧ pattF x = true) ∨ (x = 6 ∧ pattF y = true) then 0 else 255⟩

/-- 3×3 buffer with dark pixels at the two corners (0,0) and (2,2), so
every border line carries a dark pixel. -/
def ringImg : Img :=
  ⟨3, 3, fun x y => if (x = 0 ∧ y = 0) ∨ (x = 2 ∧ y = 2) then 0 else 255⟩

lemma shrinkwrap_eq (img : Img) (x1 y1 x2 y2 : Nat) :
    shrinkwrap_bounding_box img x1 y1 x2 y2 =
      (shrinkLeft img x1 x2 (shrinkTop img x2 y1 y2) y2,
       shrinkTop img x2 y1 y2,
       shrinkRight img (shrinkLeft img x1 x2 (shrinkTop img x2 y1 y2) y2) x2
         (shrinkTop img x2 y1 y2)
         (shrinkBot img (shrinkLeft img x1 x2 (shrinkTop img x2 y1 y2) y2) x2
           (shrinkTop img x2 y1 y2) y2),
       shrinkBot img (shrinkLeft img x1 x2 (shrinkTop img x2 y1 y2) y2) x2
         (shrinkTop img x2 y1 y2) y2) := rfl

lemma rowHasDark_iff (img : Img) (xlo xhi y : Nat) :
    rowHasDark img xlo xhi y = true ↔
      ∃ x, xlo ≤ x ∧ x ≤ xhi ∧ img.pix x y < 16 := by
  unfold rowHasDark
  simp only [List.any_eq_true, List.mem_range, decide_eq_true_eq]
  constructor
  · rintro ⟨i, hi, hp⟩
    exact ⟨xlo + i, by omega, by omega, hp⟩
  · rintro ⟨x, hx1, hx2, hp⟩
    refine ⟨x - xlo, by omega, ?_⟩
    have : xlo + (x - xlo) = x := by omega
    rw [this]; exact hp

lemma colHasDark_iff (img : Img) (ylo yhi x : Nat) :
    colHasDark img ylo yhi x = true ↔
      ∃ y, ylo ≤ y ∧ y ≤ yhi ∧ img.pix x y < 16 := by
  unfold colHasDark
  simp only [List.any_eq_true, List.mem_range, decide_eq_true_eq]
  constructor
  · rintro ⟨i, hi, hp⟩
    exact ⟨ylo + i, by omega, by omega, hp⟩
  · rintro ⟨y, hy1, hy2, hp⟩
    refine ⟨y - ylo, by omega, ?_⟩
    have : ylo + (y - ylo) = y := by omega
    rw [this]; exact hp

lemma scanUpw_of_pos (p : Nat → Bool) (start fuel : Nat)
    (h : p start = true) : scanUpw p start fuel = start := by
  cases fuel with
  | zero => rfl
  | succ n => simp [scanUpw, h]

lemma scanUpw_of_first (p : Nat → Bool) (j : Nat) :
    ∀ start fuel, j ≤ fuel → p (start + j) = true →
      (∀ k, k < j → p (start + k) = false) →
      scanUpw p start fuel = start + j := by
  induction j with
  | zero =>
      intro start fuel _ hfirst _
      simpa using scanUpw_of_pos p start fuel (by simpa using hfirst)
  | succ j ih =>
      intro start fuel hj hfirst hbefore
      cases fuel with
      | zero => omega
      | succ m =>
          have h0 : p start = false := by
            have := hbefore 0 (by omega); simpa using this
          have hstep : scanUpw p start (m + 1) = scanUpw p (start + 1) m := by
            simp [scanUpw, h0]
          rw [hstep]
          have := ih (start + 1) m (by omega)
            (by have : start + 1 + j = start + (j + 1) := by omega
                rw [this]; exact hfirst)
            (by intro k hk
                have : start + 1 + k = start + (k + 1) := by omega
                rw [this]; exact hbefore (k + 1) (by omega))
          rw [this]; omega

lemma scanUpw_post (p : Nat → Bool) :
    ∀ start fuel, scanUpw p start fuel = start + fuel ∨
      p (scanUpw p start fuel) = true := by
  intro start fuel
  induction fuel generalizing start with
  | zero => left; rfl
  | succ n ih =>
      by_cases h : p start = true
      · right; rw [scanUpw_of_pos p start (n + 1) h]; exact h
      · have h' : p start = false := by simpa using h
        have hstep : scanUpw p start (n + 1) = scanUpw p (start + 1) n := by
          simp [scanUpw, h']
        rw [hstep]
        rcases ih (start + 1) with h1 | h1
        · left; omega
        · right; exact h1

lemma scanUpw_bounds (p : Nat → Bool) :
    ∀ start fuel, start ≤ scanUpw p start fuel ∧
      scanUpw p start fuel ≤ start + fuel := by
  intro start fuel
  induction fuel generalizing start with
  | zero => simp [scanUpw]
  | succ n ih =>
      by_cases h : p start = true
      · rw [scanUpw_of_pos p start (n + 1) h]; omega
      · have h' : p start = false := by simpa using h
        have hstep : scanUpw p start (n + 1) = scanUpw p (start + 1) n := by
          simp [scanUpw, h']
        rw [hstep]
        have := ih (start + 1)
        omega

lemma scanUpw_before (p : Nat → Bool) :
    ∀ start fuel y, start ≤ y → y < scanUpw p start fuel → p y = false := by
  intro start fuel
  induction fuel generalizing start with
  | zero =>
      intro y h1 h2
      simp only [scanUpw] at h2; omega
  | succ n ih =>
      intro y h1 h2
      by_cases h : p start = true
      · rw [scanUpw_of_pos p start (n + 1) h] at h2; omega
      · have h' : p start = false := by simpa using h
        have hstep : scanUpw p start (n + 1) = scanUpw p (start + 1) n := by
          simp [scanUpw, h']
        rw [hstep] at h2
        rcases Nat.eq_or_lt_of_le h1 with heq | hlt
        · rw [← heq]; exact h'
        · exact ih (start + 1) y hlt h2

lemma scanDownw_of_pos (p : Nat → Bool) (start fuel : Nat)
    (h : p start = true) : scanDownw p start fuel = start := by
  cases fuel with
  | zero => rfl
  | succ n => simp [scanDownw, h]

lemma scanDownw_of_first (p : Nat → Bool) (j : Nat) :
    ∀ start fuel, j ≤ fuel → p (start - j) = true →
      (∀ k, k < j → p (start - k) = false) →
      scanDownw p start fuel = start - j := by
  induction j with
  | zero =>
      intro start fuel _ hfirst _
      simpa using scanDownw_of_pos p start fuel (by simpa using hfirst)
  | succ j ih =>
      intro start fuel hj hfirst hbefore
      cases fuel with
      | zero => omega
      | succ m =>
          have h0 : p start = false := by
            have := hbefore 0 (by omega); simpa using this
          by_cases hs : start = 0
          · exfalso
            have : p 0 = true := by
              have h00 : (0 : Nat) - (j + 1) = 0 := by omega
              rw [hs] at hfirst; rw [h00] at hfirst; exact hfirst
            rw [hs] at h0; rw [h0] at this; exact Bool.noConfusion this
          · have hstep : scanDownw p start (m + 1) = scanDownw p (start - 1) m := by
              simp [scanDownw, h0]
            rw [hstep]
            have := ih (start - 1) m (by omega)
              (by have : start - 1 - j = start - (j + 1) := by omega
                  rw [this]; exact hfirst)
              (by intro k hk
                  have : start - 1 - k = start - (k + 1) := by omega
                  rw [this]; exact hbefore (k + 1) (by omega))
            rw [this]; omega

lemma scanDownw_post (p : Nat → Bool) :
    ∀ start fuel, scanDownw p start fuel = start - fuel ∨
      p (scanDownw p start fuel) = true := by
  intro start fuel
  induction fuel generalizing start with
  | zero => left; rfl
  | succ n ih =>
      by_cases h : p start = true
      · right; rw [scanDownw_of_pos p start (n + 1) h]; exact h
      · have h' : p start = false := by simpa using h
        have hstep : scanDownw p start (n + 1) = scanDownw p (start - 1) n := by
          simp [scanDownw, h']
        rw [hstep]
        rcases ih (start - 1) with h1 | h1
        · left; omega
        · right; exact h1

lemma scanDownw_bounds (p : Nat → Bool) :
    ∀ start fuel, start - fuel ≤ scanDownw p start fuel ∧
      scanDownw p start fuel ≤ start := by
  intro start fuel
  induction fuel generalizing start with
  | zero => simp [scanDownw]
  | succ n ih =>
      by_cases h : p start = true
      · rw [scanDownw_of_pos p start (n + 1) h]; omega
      · have h' : p start = false := by simpa using h
        have hstep : scanDownw p start (n + 1) = scanDownw p (start - 1) n := by
          simp [scanDownw, h']
        rw [hstep]
        have := ih (start - 1)
        omega

lemma scanDownw_before (p : Nat → Bool) :
    ∀ start fuel y, scanDownw p start fuel < y → y ≤ start → p y = false := by
  intro start fuel
  induction fuel generalizing start with
  | zero =>
      intro y h1 h2
      simp only [scanDownw] at h1; omega
  | succ n ih =>
      intro y h1 h2
      by_cases h : p start = true
      · rw [scanDownw_of_pos p start (n + 1) h] at h1; omega
      · have h' : p start = false := by simpa using h
        have hstep : scanDownw p start (n + 1) = scanDownw p (start - 1) n := by
          simp [scanDownw, h']
        rw [hstep] at h1
        rcases Nat.eq_or_lt_of_le h2 with heq | hlt
        · rw [heq]; exact h'
        · exact ih (start - 1) y h1 (by omega)

lemma ID_PATTERN_eq_map : ID_PATTERN = (List.range 21).map pattF := by decide

lemma pattF_rev (i : Nat) (h : i < 21) : pattF (20 - i) = pattF i := by
  interval_cases i <;> decide

lemma map_range_eq_iff (f g : Nat → Bool) (n : Nat) :
    (List.range n).map f = (List.range n).map g ↔ ∀ i, i < n → f i = g i := by
  constructor
  · intro h i hi
    have h2 := congrArg (fun l => l[i]?) h
    simp only [List.getElem?_map, List.getElem?_range hi] at h2
    simpa using h2
  · intro h
    apply List.map_congr_left
    intro a ha
    exact h a (List.mem_range.mp ha)

lemma pixelPitch_21 : pixelPitch 21 = 1 := rfl

lemma stripRow_match (img : Img) (hw : img.w = 21) (j : Nat) :
    stripRow img j = ID_PATTERN ↔ rowMatch img j := by
  rw [ID_PATTERN_eq_map]
  unfold stripRow rowMatch
  rw [hw, pixelPitch_21]
  norm_num

lemma stripCol_match (img : Img) (hw : img.w = 21) (j : Nat) :
    stripCol img j = ID_PATTERN ↔ colMatch img j := by
  rw [ID_PATTERN_eq_map]
  unfold stripCol colMatch
  rw [hw, pixelPitch_21]
  norm_num

lemma match_rev (f : Nat → Bool) :
    (∀ i, i < 21 → f (20 - i) = pattF i) ↔
      (∀ i, i < 21 → f i = pattF i) := by
  constructor <;> intro h i hi
  · have h2 := h (20 - i) (by omega)
    have e : 20 - (20 - i) = i := by omega
    rw [e] at h2
    rw [h2, pattF_rev i hi]
  · rw [h (20 - i) (by omega), pattF_rev i hi]

lemma up_rot90 (img : Img) (hh : img.h = 21) (h : colMatch img 6) :
    idUpper (rotate90 img) = ID_PATTERN := by
  unfold idUpper
  rw [stripRow_match (rotate90 img) hh 6]
  intro i hi
  have e : (rotate90 img).pix i 6 = img.pix 6 (20 - i) := by
    show img.pix 6 (img.h - 1 - i) = img.pix 6 (20 - i)
    congr 1
    omega
  rw [e, h (20 - i) (by omega), pattF_rev i hi]

lemma left_rot90 (img : Img) (hh : img.h = 21) (h : rowMatch img 14) :
    idLeft (rotate90 img) = ID_PATTERN := by
  unfold idLeft
  rw [stripCol_match (rotate90 img) hh 6]
  intro i hi
  have e : (rotate90 img).pix 6 i = img.pix i 14 := by
    show img.pix i (img.h - 1 - 6) = img.pix i 14
    congr 1
    omega
  rw [e]
  exact h i hi

lemma right_rot90 (img : Img) (hh : img.h = 21) (h : rowMatch img 6) :
    idRight (rotate90 img) = ID_PATTERN := by
  unfold idRight
  rw [stripCol_match (rotate90 img) hh 14]
  intro i hi
  have e : (rotate90 img).pix 14 i = img.pix i 6 := by
    show img.pix i (img.h - 1 - 14) = img.pix i 6
    congr 1
    omega
  rw [e]
  exact h i hi

lemma up_rot180 (img : Img) (hw : img.w = 21) (hh : img.h = 21)
    (h : rowMatch img 14) : idUpper (rotate180 img) = ID_PATTERN := by
  unfold idUpper
  rw [stripRow_match (rotate180 img) hw 6]
  intro i hi
  have e : (rotate180 img).pix i 6 = img.pix (20 - i) 14 := by
    show img.pix (img.w - 1 - i) (img.h - 1 - 6) = img.pix (20 - i) 14
    congr 1 <;> omega
  rw [e, h (20 - i) (by omega), pattF_rev i hi]

lemma left_rot180 (img : Img) (hw : img.w = 21) (hh : img.h = 21)
    (h : colMatch img 14) : idLeft (rotate180 img) = ID_PATTERN := by
  unfold idLeft
  rw [stripCol_match (rotate180 img) hw 6]
  intro i hi
  have e : (rotate180 img).pix 6 i = img.pix 14 (20 - i) := by
    show img.pix (img.w - 1 - 6) (img.h - 1 - i) = img.pix 14 (20 - i)
    congr 1 <;> omega
  rw [e, h (20 - i) (by omega), pattF_rev i hi]

lemma low_rot180 (img : Img) (hw : img.w = 21) (hh : img.h = 21)
    (h : rowMatch img 6) : idLower (rotate180 img) = ID_PATTERN := by
  unfold idLower
  rw [stripRow_match (rotate180 img) hw 14]
  intro i hi
  have e : (rotate180 img).pix i 14 = img.pix (20 - i) 6 := by
    show img.pix (img.w - 1 - i) (img.h - 1 - 14) = img.pix (20 - i) 6
    congr 1 <;> omega
  rw [e, h (20 - i) (by omega), pattF_rev i hi]

lemma right_rot180 (img : Img) (hw : img.w = 21) (hh : img.h = 21)
    (h : colMatch img 6) : idRight (rotate180 img) = ID_PATTERN := by
  unfold idRight
  rw [stripCol_match (rotate180 img) hw 14]
  intro i hi
  have e : (rotate180 img).pix 14 i = img.pix 6 (20 - i) := by
    show img.pix (img.w - 1 - 14) (img.h - 1 - i) = img.pix 6 (20 - i)
    congr 1 <;> omega
  rw [e, h (20 - i) (by omega), pattF_rev i hi]

lemma up_rot270 (img : Img) (hw : img.w = 21) (hh : img.h = 21)
    (h : colMatch img 14) : idUpper (rotate270 img) = ID_PATTERN := by
  unfold idUpper
  rw [stripRow_match (rotate270 img) hh 6]
  intro i hi
  have e : (rotate270 img).pix i 6 = img.pix 14 i := by
    show img.pix (img.w - 1 - 6) i = img.pix 14 i
    congr 1
    omega
  rw [e]
  exact h i hi

lemma left_rot270 (img : Img) (hw : img.w = 21) (hh : img.h = 21)
    (h : rowMatch img 6) : idLeft (rotate270 img) = ID_PATTERN := by
  unfold idLeft
  rw [stripCol_match (rotate270 img) hh 6]
  intro i hi
  have e : (rotate270 img).pix 6 i = img.pix (20 - i) 6 := by
    show img.pix (img.w - 1 - i) 6 = img.pix (20 - i) 6
    congr 1
    omega
  rw [e, h (20 - i) (by omega), pattF_rev i hi]

lemma low_rot270 (img : Img) (hw : img.w = 21) (hh : img.h = 21)
    (h : colMatch img 6) : idLower (rotate270 img) = ID_PATTERN := by
  unfold idLower
  rw [stripRow_match (rotate270 img) hh 14]
  intro i hi
  have e : (rotate270 img).pix i 14 = img.pix 6 i := by
    show img.pix (img.w - 1 - 14) i = img.pix 6 i
    congr 1
    omega
  rw [e]
  exact h i hi

/-- If the lower and left strips of a pitch-one buffer match the
pattern, rotating it 90° clockwise puts the pattern on top and left. -/
lemma restore90 (img : Img) (hw : img.w = 21) (hh : img.h = 21)
    (hlo : idLower img = ID_PATTERN) (hle : idLeft img = ID_PATTERN) :
    idUpper (rotate90 img) = ID_PATTERN ∧
      idLeft (rotate90 img) = ID_PATTERN :=
  ⟨up_rot90 img hh ((stripCol_match img hw 6).mp hle),
   left_rot90 img hh ((stripRow_match img hw 14).mp hlo)⟩

/-- If the right and lower strips match, rotating 180° puts the pattern
on top and left. -/
lemma restore180 (img : Img) (hw : img.w = 21) (hh : img.h = 21)
    (hr : idRight img = ID_PATTERN) (hlo : idLower img = ID_PATTERN) :
    idUpper (rotate180 img) = ID_PATTERN ∧
      idLeft (rotate180 img) = ID_PATTERN :=
  ⟨up_rot180 img hw hh ((stripRow_match img hw 14).mp hlo),
   left_rot180 img hw hh ((stripCol_match img hw 14).mp hr)⟩

/-- If the upper and right strips match, rotating 270° puts the pattern
on top and left. -/
lemma restore270 (img : Img) (hw : img.w = 21) (hh : img.h = 21)
    (hu : idUpper img = ID_PATTERN) (hr : idRight img = ID_PATTERN) :
    idUpper (rotate270 img) = ID_PATTERN ∧
      idLeft (rotate270 img) = ID_PATTERN :=
  ⟨up_rot270 img hw hh ((stripCol_match img hw 14).mp hr),
   left_rot270 img hw hh ((stripRow_match img hw 6).mp hu)⟩

/-- C1: the detector applies exactly the first matching branch in
priority order — lower+left ⇒ rotate 90°, else right+lower ⇒ rotate
180°, else upper+right ⇒ rotate 270°, else no rotation (the strips
being the four border strips sampled at module centers with threshold
127 from module rows 6 and 14 and module columns 6 and 14). -/
theorem orientation_priority (img : Img) :
    (idLower img = ID_PATTERN ∧ idLeft img = ID_PATTERN →
      orientDecision img = Rot.r90) ∧
    (¬(idLower img = ID_PATTERN ∧ idLeft img = ID_PATTERN) →
      idRight img = ID_PATTERN ∧ idLower img = ID_PATTERN →
      orientDecision img = Rot.r180) ∧
    (¬(idLower img = ID_PATTERN ∧ idLeft img = ID_PATTERN) →
      ¬(idRight img = ID_PATTERN ∧ idLower img = ID_PATTERN) →
      idUpper img = ID_PATTERN ∧ idRight img = ID_PATTERN →
      orientDecision img = Rot.r270) ∧
    (¬(idLower img = ID_PATTERN ∧ idLeft img = ID_PATTERN) →
      ¬(idRight img = ID_PATTERN ∧ idLower img = ID_PATTERN) →
      ¬(idUpper img = ID_PATTERN ∧ idRight img = ID_PATTERN) →
      orientDecision img = Rot.r0) := by
  unfold orientDecision
  split_ifs with h1 h2 h3 <;>
    refine ⟨?_, ?_, ?_, ?_⟩ <;> intros <;> first | rfl | tauto

/-- C3: round-trip — for every canonical upright 21×21 module grid
(upper and left strips equal to the identifier pattern), rotating it by
90°, 180° or 270° and then applying the rotation that the orientation
decision branches select for the rotated grid restores a grid whose
upper and left strips again equal the identifier pattern. -/
theorem orientation_round_trip (img : Img) (hw : img.w = 21)
    (hh : img.h = 21) (hu : idUpper img = ID_PATTERN)
    (hl : idLeft img = ID_PATTERN) (r : Rot) (hr : r ≠ Rot.r0) :
    idUpper (applyRot (orientDecision (applyRot r img)) (applyRot r img)) =
        ID_PATTERN ∧
      idLeft (applyRot (orientDecision (applyRot r img)) (applyRot r img)) =
        ID_PATTERN := by
  have hU : rowMatch img 6 := (stripRow_match img hw 6).mp hu
  have hL : colMatch img 6 := (stripCol_match img hw 6).mp hl
  cases r with
  | r0 => exact absurd rfl hr
  | r90 =>
      have hgu : idUpper (rotate90 img) = ID_PATTERN := up_rot90 img hh hL
      have hgr : idRight (rotate90 img) = ID_PATTERN := right_rot90 img hh hU
      simp only [applyRot]
      unfold orientDecision
      split_ifs with h1 h2 h3
      · exact restore90 (rotate90 img) hh hw h1.1 h1.2
      · exact restore180 (rotate90 img) hh hw h2.1 h2.2
      · exact restore270 (rotate90 img) hh hw h3.1 h3.2
      · exact absurd ⟨hgu, hgr⟩ h3
  | r180 =>
      have hglo : idLower (rotate180 img) = ID_PATTERN := low_rot180 img hw hh hU
      have hgr : idRight (rotate180 img) = ID_PATTERN := right_rot180 img hw hh hL
      simp only [applyRot]
      unfold orientDecision
      split_ifs with h1 h2 h3
      · exact restore90 (rotate180 img) hw hh h1.1 h1.2
      · exact restore180 (rotate180 img) hw hh h2.1 h2.2
      · exact restore270 (rotate180 img) hw hh h3.1 h3.2
      · exact absurd ⟨hgr, hglo⟩ h2
  | r270 =>
      have hglo : idLower (rotate270 img) = ID_PATTERN := low_rot270 img hw hh hL
      have hgle : idLeft (rotate270 img) = ID_PATTERN := left_rot270 img hw hh hU
      simp only [applyRot]
      unfold orientDecision
      split_ifs with h1 h2 h3
      · exact restore90 (rotate270 img) hh hw h1.1 h1.2
      · exact restore180 (rotate270 img) hh hw h2.1 h2.2
      · exact restore270 (rotate270 img) hh hw h3.1 h3.2
      · exact absurd ⟨hglo, hgle⟩ h1

/-- C2: on an image whose dark pixels (intensity < 16) are exactly a
solid axis-aligned rectangle `[a, b] × [c, d]`, the shrinkwrap over the
full image bounds returns exactly that rectangle's inclusive
coordinates. -/
theorem shrinkwrap_solid_rect (img : Img) (a b c d : Nat)
    (hab : a ≤ b) (hbw : b < img.w) (hcd : c ≤ d) (hdh : d < img.h)
    (hrect : ∀ x, x < img.w → ∀ y, y < img.h →
      (img.pix x y < 16 ↔ a ≤ x ∧ x ≤ b ∧ c ≤ y ∧ y ≤ d)) :
    shrinkwrap_bounding_box img 0 0 (img.w - 1) (img.h - 1) = (a, c, b, d) := by
  have hRowGen : ∀ xlo xhi y, y < img.h → xlo ≤ a → b ≤ xhi →
      xhi ≤ img.w - 1 → (rowHasDark img xlo xhi y = true ↔ c ≤ y ∧ y ≤ d) := by
    intro xlo xhi y hy h1 h2 h3
    rw [rowHasDark_iff]
    constructor
    · rintro ⟨x, _, hx2, hp⟩
      have := (hrect x (by omega) y hy).mp hp
      omega
    · rintro ⟨hc1, hd1⟩
      exact ⟨a, by omega, by omega,
        (hrect a (by omega) y hy).mpr ⟨Nat.le_refl a, hab, hc1, hd1⟩⟩
  have hColGen : ∀ ylo yhi x, x < img.w → ylo ≤ c → d ≤ yhi →
      yhi ≤ img.h - 1 → (colHasDark img ylo yhi x = true ↔ a ≤ x ∧ x ≤ b) := by
    intro ylo yhi x hx h1 h2 h3
    rw [colHasDark_iff]
    constructor
    · rintro ⟨y, _, hy2, hp⟩
      have := (hrect x hx y (by omega)).mp hp
      omega
    · rintro ⟨ha1, hb1⟩
      exact ⟨c, by omega, by omega,
        (hrect x hx c (by omega)).mpr ⟨ha1, hb1, Nat.le_refl c, hcd⟩⟩
  have hTop : shrinkTop img (img.w - 1) 0 (img.h - 1) = c := by
    unfold shrinkTop
    have := scanUpw_of_first (fun y => rowHasDark img 0 (img.w - 1) y) c 0
      (img.h - 1 - 0) (by omega)
      (by have h0 : 0 + c = c := by omega
          rw [h0]
          exact (hRowGen 0 (img.w - 1) c (by omega) (by omega) (by omega)
            (by omega)).mpr ⟨Nat.le_refl c, hcd⟩)
      (by intro k hk
          have h0 : 0 + k = k := by omega
          rw [h0]
          show rowHasDark img 0 (img.w - 1) k = false
          cases hval : rowHasDark img 0 (img.w - 1) k with
          | false => rfl
          | true =>
              have := (hRowGen 0 (img.w - 1) k (by omega) (by omega)
                (by omega) (by omega)).mp hval
              omega)
    rw [this]
    omega
  have hLeft : shrinkLeft img 0 (img.w - 1) c (img.h - 1) = a := by
    unfold shrinkLeft
    have := scanUpw_of_first (fun x => colHasDark img c (img.h - 1) x) a 0
      (img.w - 1 - 0) (by omega)
      (by have h0 : 0 + a = a := by omega
          rw [h0]
          exact (hColGen c (img.h - 1) a (by omega) (by omega) (by omega)
            (by omega)).mpr ⟨Nat.le_refl a, hab⟩)
      (by intro k hk
          have h0 : 0 + k = k := by omega
          rw [h0]
          show colHasDark img c (img.h - 1) k = false
          cases hval : colHasDark img c (img.h - 1) k with
          | false => rfl
          | true =>
              have := (hColGen c (img.h - 1) k (by omega) (by omega)
                (by omega) (by omega)).mp hval
              omega)
    rw [this]
    omega
  have hBot : shrinkBot img a (img.w - 1) c (img.h - 1) = d := by
    unfold shrinkBot
    have := scanDownw_of_first (fun y => rowHasDark img a (img.w - 1) y)
      (img.h - 1 - d) (img.h - 1) (img.h - 1 - c) (by omega)
      (by have h0 : img.h - 1 - (img.h - 1 - d) = d := by omega
          rw [h0]
          exact (hRowGen a (img.w - 1) d (by omega) (by omega) (by omega)
            (by omega)).mpr ⟨hcd, Nat.le_refl d⟩)
      (by intro k hk
          show rowHasDark img a (img.w - 1) (img.h - 1 - k) = false
          cases hval : rowHasDark img a (img.w - 1) (img.h - 1 - k) with
          | false => rfl
          | true =>
              have := (hRowGen a (img.w - 1) (img.h - 1 - k) (by omega)
                (by omega) (by omega) (by omega)).mp hval
              omega)
    rw [this]
    omega
  have hRight : shrinkRight img a (img.w - 1) c d = b := by
    unfold shrinkRight
    have := scanDownw_of_first (fun x => colHasDark img c d x)
      (img.w - 1 - b) (img.w - 1) (img.w - 1 - a) (by omega)
      (by have h0 : img.w - 1 - (img.w - 1 - b) = b := by omega
          rw [h0]
          exact (hColGen c d b (by omega) (by omega) (by omega)
            (by omega)).mpr ⟨hab, Nat.le_refl b⟩)
      (by intro k hk
          show colHasDark img c d (img.w - 1 - k) = false
          cases hval : colHasDark img c d (img.w - 1 - k) with
          | false => rfl
          | true =>
              have := (hColGen c d (img.w - 1 - k) (by omega) (by omega)
                (by omega) (by omega)).mp hval
              omega)
    rw [this]
    omega
  rw [shrinkwrap_eq, hTop, hLeft, hBot, hRight]

/-- C4 (amended): after shrinkwrapping a valid rectangle, the left,
bottom and right edges of the returned box each carry a dark pixel
within the final box extent (rows `[y1', y2']` for the side columns,
columns `[x1', x2']` for the bottom row), while the top edge carries
one within columns `[0, x2]` — the top pass scans from column 0, so its
dark pixel may lie left of the final box — each unless that edge
collapsed onto its opposite edge. -/
theorem shrinkwrap_edges_dark (img : Img) (x1 y1 x2 y2 a b c d : Nat)
    (hx : x1 ≤ x2) (hy : y1 ≤ y2)
    (hr : shrinkwrap_bounding_box img x1 y1 x2 y2 = (a, b, c, d)) :
    (b = y2 ∨ ∃ x, x ≤ x2 ∧ img.pix x b < 16) ∧
    (a = x2 ∨ ∃ y, b ≤ y ∧ y ≤ d ∧ img.pix a y < 16) ∧
    (d = b ∨ ∃ x, a ≤ x ∧ x ≤ c ∧ img.pix x d < 16) ∧
    (c = a ∨ ∃ y, b ≤ y ∧ y ≤ d ∧ img.pix c y < 16) := by
  rw [shrinkwrap_eq, Prod.ext_iff, Prod.ext_iff, Prod.ext_iff] at hr
  obtain ⟨ha, hb, hc, hd⟩ := hr
  simp only at ha hb hc hd
  rw [hb] at ha
  rw [hb, ha] at hd
  rw [hb, ha, hd] at hc
  have hbB := scanUpw_bounds (fun y => rowHasDark img 0 x2 y) y1 (y2 - y1)
  unfold shrinkTop at hb
  rw [hb] at hbB
  have hb_le : b ≤ y2 := by omega
  have haB := scanUpw_bounds (fun x => colHasDark img b y2 x) x1 (x2 - x1)
  unfold shrinkLeft at ha
  rw [ha] at haB
  have ha_le : a ≤ x2 := by omega
  have hdB := scanDownw_bounds (fun y => rowHasDark img a x2 y) y2 (y2 - b)
  unfold shrinkBot at hd
  rw [hd] at hdB
  have hd_ge : b ≤ d := by omega
  unfold shrinkRight at hc
  have hBotRej : ∀ y, d < y → y ≤ y2 → rowHasDark img a x2 y = false := by
    intro y hy1 hy2'
    exact scanDownw_before (fun y => rowHasDark img a x2 y) y2 (y2 - b) y
      (by rw [hd]; exact hy1) hy2'
  have hRightRej : ∀ x, c < x → x ≤ x2 → colHasDark img b d x = false := by
    intro x hx1 hx2'
    exact scanDownw_before (fun x => colHasDark img b d x) x2 (x2 - a) x
      (by rw [hc]; exact hx1) hx2'
  refine ⟨?_, ?_, ?_, ?_⟩
  · rcases scanUpw_post (fun y => rowHasDark img 0 x2 y) y1 (y2 - y1) with
      h | h
    · left; rw [hb] at h; omega
    · right
      rw [hb] at h
      obtain ⟨x, _, hx2', hp⟩ := (rowHasDark_iff img 0 x2 b).mp h
      exact ⟨x, hx2', hp⟩
  · rcases scanUpw_post (fun x => colHasDark img b y2 x) x1 (x2 - x1) with
      h | h
    · left; rw [ha] at h; omega
    · right
      rw [ha] at h
      obtain ⟨v, hv1, hv2, hp⟩ := (colHasDark_iff img b y2 a).mp h
      refine ⟨v, hv1, ?_, hp⟩
      by_contra hgt
      have hrej := hBotRej v (by omega) hv2
      have htrue : rowHasDark img a x2 v = true :=
        (rowHasDark_iff img a x2 v).mpr ⟨a, Nat.le_refl a, ha_le, hp⟩
      rw [hrej] at htrue
      exact Bool.noConfusion htrue
  · rcases scanDownw_post (fun y => rowHasDark img a x2 y) y2 (y2 - b) with
      h | h
    · left; rw [hd] at h; omega
    · right
      rw [hd] at h
      obtain ⟨u, hu1, hu2, hp⟩ := (rowHasDark_iff img a x2 d).mp h
      refine ⟨u, hu1, ?_, hp⟩
      by_contra hgt
      have hrej := hRightRej u (by omega) hu2
      have htrue : colHasDark img b d u = true :=
        (colHasDark_iff img b d u).mpr ⟨d, hd_ge, Nat.le_refl d, hp⟩
      rw [hrej] at htrue
      exact Bool.noConfusion htrue
  · rcases scanDownw_post (fun x => colHasDark img b d x) x2 (x2 - a) with
      h | h
    · left; rw [hc] at h; omega
    · right
      rw [hc] at h
      exact (colHasDark_iff img b d c).mp h

/-- C6: on an all-light image (every in-bounds pixel at least 16) the
shrinkwrap of any valid rectangle terminates with the box collapsed to
the single point `(x2, y2)`: the top and left edges walk all the way to
their opposite edges and the other two loops then have an empty range.
Termination itself is structural: each scan's fuel is the distance
between the moving edge and its opposite edge. -/
theorem shrinkwrap_all_light (img : Img) (x1 y1 x2 y2 : Nat)
    (hx2 : x2 < img.w) (hy2 : y2 < img.h) (hx : x1 ≤ x2) (hy : y1 ≤ y2)
    (hlight : ∀ x, x < img.w → ∀ y, y < img.h → 16 ≤ img.pix x y) :
    shrinkwrap_bounding_box img x1 y1 x2 y2 = (x2, y2, x2, y2) := by
  have hrow : ∀ xlo y, y < img.h → rowHasDark img xlo x2 y = false := by
    intro xlo y hyh
    cases hval : rowHasDark img xlo x2 y with
    | false => rfl
    | true =>
        obtain ⟨x, _, hxle, hp⟩ := (rowHasDark_iff img xlo x2 y).mp hval
        have := hlight x (by omega) y hyh
        omega
  have hcol : ∀ x, x < img.w → colHasDark img y2 y2 x = false := by
    intro x hxw
    cases hval : colHasDark img y2 y2 x with
    | false => rfl
    | true =>
        obtain ⟨y, hy1', hy2', hp⟩ := (colHasDark_iff img y2 y2 x).mp hval
        have hyy : y = y2 := by omega
        rw [hyy] at hp
        have := hlight x hxw y2 hy2
        omega
  have hTop : shrinkTop img x2 y1 y2 = y2 := by
    unfold shrinkTop
    rcases scanUpw_post (fun y => rowHasDark img 0 x2 y) y1 (y2 - y1) with
      h | h
    · omega
    · exfalso
      have hle := scanUpw_bounds (fun y => rowHasDark img 0 x2 y) y1 (y2 - y1)
      have hfalse := hrow 0 (scanUpw (fun y => rowHasDark img 0 x2 y) y1
        (y2 - y1)) (by omega)
      rw [hfalse] at h
      exact Bool.noConfusion h
  have hLeft : shrinkLeft img x1 x2 y2 y2 = x2 := by
    unfold shrinkLeft
    rcases scanUpw_post (fun x => colHasDark img y2 y2 x) x1 (x2 - x1) with
      h | h
    · omega
    · exfalso
      have hle := scanUpw_bounds (fun x => colHasDark img y2 y2 x) x1 (x2 - x1)
      have hfalse := hcol (scanUpw (fun x => colHasDark img y2 y2 x) x1
        (x2 - x1)) (by omega)
      rw [hfalse] at h
      exact Bool.noConfusion h
  have hBot : shrinkBot img x2 x2 y2 y2 = y2 := by
    unfold shrinkBot
    rw [Nat.sub_self]
    simp [scanDownw]
  have hRight : shrinkRight img x2 x2 y2 y2 = x2 := by
    unfold shrinkRight
    rw [Nat.sub_self]
    simp [scanDownw]
  rw [shrinkwrap_eq, hTop, hLeft, hBot, hRight]

/-- C7 (amended): the top-edge pass stops exactly at the first row from
`y1` containing a dark pixel within columns `[0, x2]` — the Rust loop
scans `for x in 0..=x2`, so columns left of `x1` are scanned too and do
affect the stop — and collapses to `y2` when no such row exists. -/
theorem shrinkwrap_top_first_dark_row (img : Img) (x1 y1 x2 y2 : Nat)
    (hy : y1 ≤ y2) :
    y1 ≤ (shrinkwrap_bounding_box img x1 y1 x2 y2).2.1 ∧
    (shrinkwrap_bounding_box img x1 y1 x2 y2).2.1 ≤ y2 ∧
    (∀ y, y1 ≤ y → y < (shrinkwrap_bounding_box img x1 y1 x2 y2).2.1 →
      rowHasDark img 0 x2 y = false) ∧
    ((shrinkwrap_bounding_box img x1 y1 x2 y2).2.1 < y2 →
      rowHasDark img 0 x2 ((shrinkwrap_bounding_box img x1 y1 x2 y2).2.1) =
        true) := by
  have e : (shrinkwrap_bounding_box img x1 y1 x2 y2).2.1 =
      shrinkTop img x2 y1 y2 := by rw [shrinkwrap_eq]
  rw [e]
  unfold shrinkTop
  have hB := scanUpw_bounds (fun y => rowHasDark img 0 x2 y) y1 (y2 - y1)
  refine ⟨by omega, by omega, ?_, ?_⟩
  · intro y hy1 hy2'
    exact scanUpw_before (fun y => rowHasDark img 0 x2 y) y1 (y2 - y1) y hy1 hy2'
  · intro hlt
    rcases scanUpw_post (fun y => rowHasDark img 0 x2 y) y1 (y2 - y1) with
      h | h
    · omega
    · exact h

/-- C9: a buffer is tightly cropped when each of its four border lines
(row 0, row `h-1`, column 0, column `w-1`) contains a dark pixel; on
such a buffer the shrinkwrap over the full extent returns the full
extent `(0, 0, w-1, h-1)` unchanged. -/
theorem shrinkwrap_tight_fixed (img : Img)
    (hT : rowHasDark img 0 (img.w - 1) 0 = true)
    (hL : colHasDark img 0 (img.h - 1) 0 = true)
    (hB : rowHasDark img 0 (img.w - 1) (img.h - 1) = true)
    (hR : colHasDark img 0 (img.h - 1) (img.w - 1) = true) :
    shrinkwrap_bounding_box img 0 0 (img.w - 1) (img.h - 1) =
      (0, 0, img.w - 1, img.h - 1) := by
  rw [shrinkwrap_eq]
  have hTop : shrinkTop img (img.w - 1) 0 (img.h - 1) = 0 := by
    unfold shrinkTop
    exact scanUpw_of_pos _ 0 _ hT
  rw [hTop]
  have hLeft : shrinkLeft img 0 (img.w - 1) 0 (img.h - 1) = 0 := by
    unfold shrinkLeft
    exact scanUpw_of_pos _ 0 _ hL
  rw [hLeft]
  have hBot : shrinkBot img 0 (img.w - 1) 0 (img.h - 1) = img.h - 1 := by
    unfold shrinkBot
    exact scanDownw_of_pos _ _ _ hB
  rw [hBot]
  have hRight : shrinkRight img 0 (img.w - 1) 0 (img.h - 1) = img.w - 1 := by
    unfold shrinkRight
    exact scanDownw_of_pos _ _ _ hR
  rw [hRight]

/-- C8: the skew-correction angle is `atan((y2 - y1) / (x2 - x1))` in
radians; for horizontal leg 10 and vertical leg 0 it is 0, and for
horizontal leg 10 and vertical leg 10 it is exactly `π / 4` (the `f32`
computation of the source is modelled over ℝ). -/
theorem correction_angle_values :
    correction_angle 10 0 = 0 ∧ correction_angle 10 10 = Real.pi / 4 := by
  unfold correction_angle
  constructor
  · norm_num [Real.arctan_zero]
  · norm_num [Real.arctan_one]

/-- C5: on an all-light buffer the recomputed bounding box degenerates
to the point `(2, 2)` (so `x2 ≤ x1` and `y2 ≤ y1`), and the crop stage
still succeeds, silently producing a 0×0 image instead of surfacing an
error: the degeneracy check the spec requires is absent from the code. -/
theorem crop_stage_silent_zero :
    shrinkwrap_bounding_box lightImg 0 0 (lightImg.w - 1) (lightImg.h - 1) =
      (2, 2, 2, 2) ∧
    (cropStage lightImg).w = 0 ∧ (cropStage lightImg).h = 0 := by decide

/-- C4 counterexample: for the initial rectangle (2,0)–(5,4) on
`cexImg` the shrinkwrap returns the non-degenerate box (3,0)–(5,4)
although dark pixels exist in the search region and the top edge of the
box (row 0, columns 3..5) contains no dark pixel: the top pass stopped
on the dark pixel at column 0, outside the final box extent. -/
theorem shrinkwrap_edges_dark_cex :
    shrinkwrap_bounding_box cexImg 2 0 5 4 = (3, 0, 5, 4) ∧
    (∃ x, x < 6 ∧ ∃ y, y < 5 ∧ 2 ≤ x ∧ y ≤ 4 ∧ cexImg.pix x y < 16) ∧
    (∀ x, x < 6 → 3 ≤ x → x ≤ 5 → 16 ≤ cexImg.pix x 0) := by decide

/-- C7 counterexample: with initial rectangle (1,0)–(2,2) on `cex7Img`
the top pass stops at row 0 even though no row contains a dark pixel
within the claim's columns `[x1, x2] = [1, 2]` (so under the claim it
would have collapsed to `y2 = 2`): the dark pixel at column 0, left of
`x1`, determined the stop. -/
theorem shrinkwrap_top_cex :
    (shrinkwrap_bounding_box cex7Img 1 0 2 2).2.1 = 0 ∧
    (∀ y, y < 3 → ∀ x, x < 3 → 1 ≤ x → x ≤ 2 → 16 ≤ cex7Img.pix x y) := by
  decide

lemma getPixelOpt_isSome (img : Img) (x y : Nat) :
    (getPixelOpt img x y).isSome = true ↔ x < img.w ∧ y < img.h := by
  unfold getPixelOpt
  split_ifs with h <;> simp [h]

lemma sampleStripOpt_isSome (img : Img) :
    ∀ coords : List (Nat × Nat), ((sampleStripOpt img coords).isSome = true ↔
      ∀ c ∈ coords, c.1 < img.w ∧ c.2 < img.h) := by
  intro coords
  induction coords with
  | nil => simp [sampleStripOpt]
  | cons c t ih =>
      cases hg : getPixelOpt img c.1 c.2 with
      | none =>
          have hnb : ¬(c.1 < img.w ∧ c.2 < img.h) := by
            intro hb
            have h2 := (getPixelOpt_isSome img c.1 c.2).mpr hb
            rw [hg] at h2
            exact Bool.noConfusion h2
          have hnone : sampleStripOpt img (c :: t) = none := by
            simp [sampleStripOpt, hg]
          rw [hnone]
          apply iff_of_false
          · simp
          · intro hall
            exact hnb (hall c (List.mem_cons_self c t))
      | some v =>
          have hb : c.1 < img.w ∧ c.2 < img.h := by
            have h2 : (getPixelOpt img c.1 c.2).isSome = true := by
              rw [hg]; rfl
            exact (getPixelOpt_isSome img c.1 c.2).mp h2
          cases hmt : sampleStripOpt img t with
          | none =>
              have hnone : sampleStripOpt img (c :: t) = none := by
                simp [sampleStripOpt, hg, hmt]
              rw [hnone]
              apply iff_of_false
              · simp
              · intro hall
                have ht : (sampleStripOpt img t).isSome = true :=
                  ih.mpr fun a ha => hall a (List.mem_cons_of_mem c ha)
                rw [hmt] at ht
                exact Bool.noConfusion ht
          | some r =>
              have hsome : sampleStripOpt img (c :: t) =
                  some (decide (v < 127) :: r) := by
                simp [sampleStripOpt, hg, hmt]
              rw [hsome]
              constructor
              · intro _ a ha
                rcases List.mem_cons.mp ha with heq | hat
                · rw [heq]; exact hb
                · exact ih.mp (by rw [hmt]; rfl) a hat
              · intro _; rfl

lemma sampleStripsOpt_isSome (img : Img) :
    (sampleStripsOpt img).isSome = true ↔
      ((sampleStripOpt img (rowCoords img.w 6)).isSome = true ∧
       (sampleStripOpt img (rowCoords img.w 14)).isSome = true ∧
       (sampleStripOpt img (colCoords img.w 6)).isSome = true ∧
       (sampleStripOpt img (colCoords img.w 14)).isSome = true) := by
  unfold sampleStripsOpt
  cases h1 : sampleStripOpt img (rowCoords img.w 6) <;>
    cases h2 : sampleStripOpt img (rowCoords img.w 14) <;>
      cases h3 : sampleStripOpt img (colCoords img.w 6) <;>
        cases h4 : sampleStripOpt img (colCoords img.w 14) <;>
          simp [h1, h2, h3, h4]

/-- C10 (amended): the guarded orientation sampling succeeds exactly
when both `20·pitch + pitch/2 < width` and `20·pitch + pitch/2 < height`
hold — the reads go up to `20·pitch + pitch/2` both horizontally (row
strips sample 21 module columns) and vertically (the left/right column
strips sample 21 module rows); with no dimension validation in the code
the out-of-bounds branch is reachable whenever either bound fails. -/
theorem sampleStrips_total_iff (img : Img) :
    (sampleStripsOpt img).isSome = true ↔
      (20 * pixelPitch img.w + pixelPitch img.w / 2 < img.w ∧
       20 * pixelPitch img.w + pixelPitch img.w / 2 < img.h) := by
  rw [sampleStripsOpt_isSome]
  have hrow : ∀ j,
      ((∀ c ∈ rowCoords img.w j, c.1 < img.w ∧ c.2 < img.h) ↔
        (∀ i, i < 21 →
          i * pixelPitch img.w + pixelPitch img.w / 2 < img.w ∧
          j * pixelPitch img.w + pixelPitch img.w / 2 < img.h)) := by
    intro j
    unfold rowCoords
    simp [List.mem_range]
  have hcol : ∀ j,
      ((∀ c ∈ colCoords img.w j, c.1 < img.w ∧ c.2 < img.h) ↔
        (∀ i, i < 21 →
          j * pixelPitch img.w + pixelPitch img.w / 2 < img.w ∧
          i * pixelPitch img.w + pixelPitch img.w / 2 < img.h)) := by
    intro j
    unfold colCoords
    simp [List.mem_range]
  rw [sampleStripOpt_isSome, sampleStripOpt_isSome, sampleStripOpt_isSome,
    sampleStripOpt_isSome, hrow 6, hrow 14, hcol 6, hcol 14]
  constructor
  · rintro ⟨h6, _, hc6, _⟩
    exact ⟨(h6 20 (by omega)).1, (hc6 20 (by omega)).2⟩
  · rintro ⟨hwb, hhb⟩
    have key : ∀ i, i ≤ 20 →
        i * pixelPitch img.w + pixelPitch img.w / 2 < img.w ∧
        i * pixelPitch img.w + pixelPitch img.w / 2 < img.h := by
      intro i hi
      have hm : i * pixelPitch img.w ≤ 20 * pixelPitch img.w :=
        Nat.mul_le_mul_right _ hi
      omega
    exact ⟨fun i hi => ⟨(key i (by omega)).1, (key 6 (by omega)).2⟩,
      fun i hi => ⟨(key i (by omega)).1, (key 14 (by omega)).2⟩,
      fun i hi => ⟨(key 6 (by omega)).1, (key i (by omega)).2⟩,
      fun i hi => ⟨(key 14 (by omega)).1, (key i (by omega)).2⟩⟩

/-- C10 counterexample: on a 21×15 buffer every read the claim accounts
for is in bounds (horizontal up to `20·pitch + pitch/2 = 20 < 21`,
vertical up to the claimed `14·pitch + pitch/2 = 14 < 15`), yet the
guarded sampling still fails: the left/right column strips read module
row 20, i.e. vertical coordinate `20·pitch + pitch/2`, past the claimed
vertical maximum. -/
theorem sampleStrips_vertical_cex :
    sampleStripsOpt tallImg = none ∧
    20 * pixelPitch tallImg.w + pixelPitch tallImg.w / 2 < tallImg.w ∧
    14 * pixelPitch tallImg.w + pixelPitch tallImg.w / 2 < tallImg.h := by
  decide

theorem orientation_priority_witness : orientDecision wImg90 = Rot.r90 :=
  (orientation_priority wImg90).1 ⟨by decide, by decide⟩

theorem shrinkwrap_solid_rect_witness :
    shrinkwrap_bounding_box rectImg 0 0 (rectImg.w - 1) (rectImg.h - 1) =
      (1, 1, 2, 2) :=
  shrinkwrap_solid_rect rectImg 1 2 1 2 (by decide) (by decide) (by decide)
    (by decide) (by decide)

theorem orientation_round_trip_witness :
    idUpper (applyRot (orientDecision (applyRot Rot.r90 canonImg))
        (applyRot Rot.r90 canonImg)) = ID_PATTERN ∧
      idLeft (applyRot (orientDecision (applyRot Rot.r90 canonImg))
        (applyRot Rot.r90 canonImg)) = ID_PATTERN :=
  orientation_round_trip canonImg rfl rfl (by decide) (by decide) Rot.r90
    (by decide)

theorem shrinkwrap_edges_dark_witness :
    ((1 : Nat) = 3 ∨ ∃ x, x ≤ 3 ∧ rectImg.pix x 1 < 16) ∧
    ((1 : Nat) = 3 ∨ ∃ y, 1 ≤ y ∧ y ≤ 2 ∧ rectImg.pix 1 y < 16) ∧
    ((2 : Nat) = 1 ∨ ∃ x, 1 ≤ x ∧ x ≤ 2 ∧ rectImg.pix x 2 < 16) ∧
    ((2 : Nat) = 1 ∨ ∃ y, 1 ≤ y ∧ y ≤ 2 ∧ rectImg.pix 2 y < 16) :=
  shrinkwrap_edges_dark rectImg 0 0 3 3 1 1 2 2 (by decide) (by decide)
    (by decide)

theorem shrinkwrap_all_light_witness :
    shrinkwrap_bounding_box lightImg 0 0 2 2 = (2, 2, 2, 2) :=
  shrinkwrap_all_light lightImg 0 0 2 2 (by decide) (by decide) (by decide)
    (by decide) (by decide)

theorem shrinkwrap_top_first_dark_row_witness :
    0 ≤ (shrinkwrap_bounding_box rectImg 0 0 3 3).2.1 ∧
    (shrinkwrap_bounding_box rectImg 0 0 3 3).2.1 ≤ 3 ∧
    (∀ y, 0 ≤ y → y < (shrinkwrap_bounding_box rectImg 0 0 3 3).2.1 →
      rowHasDark rectImg 0 3 y = false) ∧
    ((shrinkwrap_bounding_box rectImg 0 0 3 3).2.1 < 3 →
      rowHasDark rectImg 0 3
        ((shrinkwrap_bounding_box rectImg 0 0 3 3).2.1) = true) :=
  shrinkwrap_top_first_dark_row rectImg 0 0 3 3 (by decide)

theorem shrinkwrap_tight_fixed_witness :
    shrinkwrap_bounding_box ringImg 0 0 (ringImg.w - 1) (ringImg.h - 1) =
      (0, 0, ringImg.w - 1, ringImg.h - 1) :=
  shrinkwrap_tight_fixed ringImg (by decide) (by decide) (by decide)
    (by decide)

theorem sampleStrips_total_witness :
    (sampleStripsOpt canonImg).isSome = true :=
  (sampleStrips_total_iff canonImg).mpr (by decide)
